import Mathlib

/-!
Verification of the yiwang spaced-repetition task tracker.

Shallow embedding of the Go packages `tasks` (the stage-progression state
machine), `store` (persistence of tasks keyed by id) and `api` (request
handlers).  Go `time.Time` values are modelled as integers (nanoseconds);
the Go zero time `time.Time{}` is the integer 0, and `time.Duration` values
are integer nanosecond counts exactly as in Go.  Random id generation
(`generateID`) is modelled by passing the id as an explicit argument.
-/

namespace Yiwang

/-- Whether a character is whitespace for Go's `strings.TrimSpace`
(Unicode `White_Space`; the characters below cover ASCII and Latin-1,
the only range the service's callers use). -/
def goIsSpace (c : Char) : Bool :=
  c = ' ' || c = '\t' || c = '\n' || c = '\x0B' || c = '\x0C' || c = '\r' ||
  c = '\u0085' || c = '\u00A0'

/-- `strings.TrimSpace`: drop leading and trailing whitespace. -/
def trimSpace (s : String) : String :=
  ⟨((s.data.dropWhile goIsSpace).reverse.dropWhile goIsSpace).reverse⟩

/-- `strings.ToLower` on one character (ASCII case mapping, the range the
handlers' keywords live in). -/
def goToLowerChar (c : Char) : Char :=
  if 'A' ≤ c ∧ c ≤ 'Z' then Char.ofNat (c.toNat + 32) else c

/-- `strings.ToLower`. -/
def toLower (s : String) : String := ⟨s.data.map goToLowerChar⟩

/-- Go duration constants, in nanoseconds (`time.Minute`, `time.Hour`). -/
def Minute : Int := 60 * 1000000000

def Hour : Int := 60 * Minute

/-- `StageDurations` from the `tasks` package: the spaced-repetition
schedule `[5m, 10m, 25m, 1h, 6h, 24h, 48h, 168h]`. -/
def StageDurations : List Int :=
  [5 * Minute, 10 * Minute, 25 * Minute, Hour, 6 * Hour, 24 * Hour, 48 * Hour, 168 * Hour]

/-- `TotalStages()`: how many spaced-repetition steps exist before
completion (the length of the ladder, as a Go `int`). -/
def TotalStages : Int := StageDurations.length

/-- Total lookup into the ladder.  Go indexing `StageDurations[i]` panics
out of range; the bounds theorem below shows the operations only evaluate
in-range indices, so the default value 0 is never produced. -/
def dur (i : Int) : Int := StageDurations.getD i.toNat 0

/-- The `Task` struct: one Q&A item progressing through spaced repetition.
`completedAt` is the Go `*time.Time` (nil = `none`). -/
structure Task where
  id : String
  question : String
  answer : String
  stage : Int
  nextReviewAt : Int
  createdAt : Int
  updatedAt : Int
  completedAt : Option Int
deriving DecidableEq, Repr

/-- `NewTask(question, answer, now)`: constructs a task at stage 0 and
schedules the first review; rejects empty trimmed fields. -/
def NewTask (question answer : String) (id : String) (now : Int) : Except String Task :=
  let q := trimSpace question
  let a := trimSpace answer
  if q = "" ∨ a = "" then
    Except.error "question and answer are required"
  else
    Except.ok
      { id := id
        question := q
        answer := a
        stage := 0
        createdAt := now
        updatedAt := now
        nextReviewAt := now + dur 0
        completedAt := none }

/-- `Task.Status(now)`: returns "done", "ready" or "pending".
`!t.NextReviewAt.After(now)` is `t.nextReviewAt ≤ now`. -/
def Status (t : Task) (now : Int) : String :=
  if t.completedAt.isSome ∨ t.stage ≥ TotalStages then "done"
  else if ¬ t.nextReviewAt > now then "ready"
  else "pending"

/-- `Task.MarkRemembered(now)`: advances the task to the next stage or
marks it completed; no-op when already completed. -/
def MarkRemembered (t : Task) (now : Int) : Task :=
  if t.completedAt.isSome then t
  else if t.stage ≥ TotalStages - 1 then
    { t with stage := TotalStages, nextReviewAt := 0, completedAt := some now, updatedAt := now }
  else
    let s := t.stage + 1
    { t with stage := s, nextReviewAt := now + dur s, updatedAt := now }

/-- `Task.MarkForgot(now)`: resets the task to the first stage. -/
def MarkForgot (t : Task) (now : Int) : Task :=
  { t with stage := 0, completedAt := none, nextReviewAt := now + dur 0, updatedAt := now }

/-- `Task.UpdateContent(question, answer)`: edits the question/answer
text; rejects empty trimmed fields (the Go method validates before any
mutation, so the error case leaves the receiver unchanged). -/
def UpdateContent (t : Task) (question answer : String) : Except String Task :=
  let q := trimSpace question
  let a := trimSpace answer
  if q = "" ∨ a = "" then
    Except.error "question and answer are required"
  else
    Except.ok { t with question := q, answer := a }

/-- The ladder index `MarkRemembered` evaluates on a given task, when it
evaluates one at all: the source reads `StageDurations[t.Stage]` only in
the final branch, after `t.Stage++`. -/
def markRememberedLadderIndex (t : Task) : Option Int :=
  if t.completedAt.isSome then none
  else if t.stage ≥ TotalStages - 1 then none
  else some (t.stage + 1)

/-- The `taskResponse` JSON representation built by the `api` package. -/
structure TaskResponse where
  id : String
  question : String
  answer : String
  stage : Int
  totalStages : Int
  status : String
  nextReviewAt : Option Int
  createdAt : Int
  updatedAt : Int
  completedAt : Option Int
deriving DecidableEq, Repr

/-- `mapTask(t, now)` from the `api` package: `nextReviewAt` is omitted
(`none`) when it is the Go zero time. -/
def mapTask (t : Task) (now : Int) : TaskResponse :=
  { id := t.id
    question := t.question
    answer := t.answer
    stage := t.stage
    totalStages := TotalStages
    status := Status t now
    nextReviewAt := if t.nextReviewAt = 0 then none else some t.nextReviewAt
    createdAt := t.createdAt
    updatedAt := t.updatedAt
    completedAt := t.completedAt }

/-- `API.listTasks`: `GET /tasks?status=...`.  The handler maps every
stored task through `mapTask` and keeps those matching the normalized
filter (empty or "all" means no filtering). -/
def listTasks (all : List Task) (statusQuery : String) (now : Int) : List TaskResponse :=
  let filter := toLower (trimSpace statusQuery)
  (all.map (fun t => mapTask t now)).filter
    (fun tr => filter = "" ∨ filter = "all" ∨ tr.status = filter)

/-- `API.readyTasks`: `GET /tasks/ready`.  Keeps exactly the mapped tasks
whose derived status is "ready". -/
def readyTasks (all : List Task) (now : Int) : List TaskResponse :=
  (all.map (fun t => mapTask t now)).filter (fun tr => tr.status = "ready")

/-- The two review outcomes of `POST /tasks/{id}/review` (the
`remembered` boolean of `API.reviewTask`). -/
inductive ReviewAction where
  | remembered
  | forgot
deriving DecidableEq, Repr

/-- The normalization `strings.ToLower(strings.TrimSpace(...))` applied
by `API.reviewTask` to the request's `result` field. -/
def normalizeResult (s : String) : String := toLower (trimSpace s)

/-- The `switch` of `API.reviewTask` on the normalized result: `some`
carries the `remembered` flag, `none` is the `default` branch (400
before any persistence call). -/
def parseReviewResult (result : String) : Option ReviewAction :=
  let r := normalizeResult result
  if r = "remembered" ∨ r = "remember" ∨ r = "ok" ∨ r = "done" then some ReviewAction.remembered
  else if r = "forgot" ∨ r = "forget" ∨ r = "miss" then some ReviewAction.forgot
  else none

/-- The persisted store modelled as the list of task rows. -/
def StoreState := List Task

/-- `Store.Review(id, remembered, now)`: load the row, delegate to
`MarkRemembered`/`MarkForgot`, write the result back; `none` is
`ErrNotFound`. -/
def storeReview (st : List Task) (id : String) (remembered : Bool) (now : Int) :
    Option (List Task × Task) :=
  match st.find? (fun t => t.id = id) with
  | none => none
  | some t =>
      let t2 := if remembered then MarkRemembered t now else MarkForgot t now
      some (st.map (fun u => if u.id = id then t2 else u), t2)

/-- `API.reviewTask`: parse the review result; on the `default` branch
respond 400 without touching the store, otherwise call `Store.Review`
(404 when the id is absent, 200 on success).  Returns the store state
after the request together with the HTTP status code. -/
def reviewTask (st : List Task) (id : String) (result : String) (now : Int) :
    List Task × Nat :=
  match parseReviewResult result with
  | none => (st, 400)
  | some act =>
      match storeReview st id (act = ReviewAction.remembered) now with
      | none => (st, 404)
      | some (st2, _) => (st2, 200)

/-- `Store.UpdateContent` as driven by `API.updateTask`: load the row
(404 if absent), delegate to `UpdateContent` (400 on validation failure,
the transaction rolls back and nothing is written), otherwise stamp
`updatedAt = now` and write back.  Returns the store state after the
request together with the HTTP status code. -/
def updateTask (st : List Task) (id question answer : String) (now : Int) :
    List Task × Nat :=
  match st.find? (fun t => t.id = id) with
  | none => (st, 404)
  | some t =>
      match UpdateContent t question answer with
      | Except.error _ => (st, 400)
      | Except.ok t2 =>
          let t3 := { t2 with updatedAt := now }
          (st.map (fun u => if u.id = id then t3 else u), 200)

/-! Basic facts about the ladder. -/

theorem totalStages_eq : TotalStages = 8 := rfl

theorem dur_pos (i : Int) (h0 : 0 ≤ i) (h1 : i < TotalStages) : 0 < dur i := by
  rw [totalStages_eq] at h1
  interval_cases i <;> decide

/-- C5: `MarkForgot(now)` on any task (completed or not) sets stage to 0,
clears `completedAt`, sets `nextReviewAt = now + ladder[0]` and
`updatedAt = now`, leaving id, question, answer and createdAt unchanged. -/
theorem markForgot_spec (t : Task) (now : Int) :
    (MarkForgot t now).stage = 0 ∧
    (MarkForgot t now).completedAt = none ∧
    (MarkForgot t now).nextReviewAt = now + dur 0 ∧
    (MarkForgot t now).updatedAt = now ∧
    (MarkForgot t now).id = t.id ∧
    (MarkForgot t now).question = t.question ∧
    (MarkForgot t now).answer = t.answer ∧
    (MarkForgot t now).createdAt = t.createdAt :=
  ⟨rfl, rfl, rfl, rfl, rfl, rfl, rfl, rfl⟩

/-- C3: `Status(now)` returns "done" iff `completedAt` is set or
`stage ≥ N`; for an incomplete task it returns "ready" iff
`nextReviewAt ≤ now` and "pending" iff `nextReviewAt > now`. -/
theorem status_spec (t : Task) (now : Int) :
    (Status t now = "done" ↔ (t.completedAt.isSome ∨ t.stage ≥ TotalStages)) ∧
    (¬(t.completedAt.isSome ∨ t.stage ≥ TotalStages) →
      ((Status t now = "ready" ↔ t.nextReviewAt ≤ now) ∧
       (Status t now = "pending" ↔ t.nextReviewAt > now))) := by
  unfold Status
  by_cases h1 : t.completedAt.isSome ∨ t.stage ≥ TotalStages
  · simp [h1]
  · by_cases h2 : t.nextReviewAt > now
    · simp [h1, h2]
    · simp [h1, h2]
      omega

/-- Witness for `status_spec` at a concrete incomplete task. -/
theorem status_spec_witness :
    (Status ⟨"x", "q", "a", 3, 50, 0, 0, none⟩ 60 = "ready" ↔ (50 : Int) ≤ 60) ∧
    (Status ⟨"x", "q", "a", 3, 50, 0, 0, none⟩ 60 = "pending" ↔ (50 : Int) > 60) :=
  (status_spec ⟨"x", "q", "a", 3, 50, 0, 0, none⟩ 60).2 (by decide)

/-- C4: `NewTask` fails with a validation error iff question or answer is
empty after trimming; on success the task has stage 0,
`nextReviewAt = now + ladder[0]`, `createdAt = updatedAt = now`,
`completedAt` unset, and trimmed question/answer. -/
theorem newTask_spec (question answer id : String) (now : Int) :
    ((trimSpace question = "" ∨ trimSpace answer = "") ↔
      NewTask question answer id now = Except.error "question and answer are required") ∧
    (∀ t, NewTask question answer id now = Except.ok t →
      t = { id := id, question := trimSpace question, answer := trimSpace answer,
            stage := 0, nextReviewAt := now + dur 0, createdAt := now,
            updatedAt := now, completedAt := none }) := by
  unfold NewTask
  by_cases h : trimSpace question = "" ∨ trimSpace answer = ""
  · simp [h]
  · simp [h]

/-- Witness for `newTask_spec`: the success branch at concrete input. -/
theorem newTask_spec_witness :
    Task.mk "id1" "q" "a" 0 (7 + dur 0) 7 7 none =
      { id := "id1", question := trimSpace " q ", answer := trimSpace "a",
        stage := 0, nextReviewAt := 7 + dur 0, createdAt := 7,
        updatedAt := 7, completedAt := none } :=
  (newTask_spec " q " "a" "id1" 7).2 (Task.mk "id1" "q" "a" 0 (7 + dur 0) 7 7 none) rfl

/-- C1: `MarkRemembered(now)` is a no-op on a completed task; on an
incomplete task with stage in `[0, N-1]` it either completes the task
(stage = N, `nextReviewAt` cleared to zero, `completedAt = now`) when the
stage was N-1, or increments the stage and schedules
`nextReviewAt = now + ladder[stage]` at the post-increment stage; in both
transition cases `updatedAt = now`. -/
theorem markRemembered_spec (t : Task) (now : Int) :
    (t.completedAt.isSome → MarkRemembered t now = t) ∧
    (t.completedAt = none → 0 ≤ t.stage → t.stage ≤ TotalStages - 1 →
      ((t.stage = TotalStages - 1 →
        MarkRemembered t now =
          { t with stage := TotalStages, nextReviewAt := 0,
                   completedAt := some now, updatedAt := now }) ∧
       (t.stage < TotalStages - 1 →
        MarkRemembered t now =
          { t with stage := t.stage + 1,
                   nextReviewAt := now + dur (t.stage + 1), updatedAt := now }))) := by
  constructor
  · intro h
    unfold MarkRemembered
    simp [h]
  · intro hc h0 h1
    constructor
    · intro he
      unfold MarkRemembered
      simp [hc, he]
    · intro hlt
      unfold MarkRemembered
      have hge : ¬ t.stage ≥ TotalStages - 1 := by omega
      simp [hc, hge]

/-- Witness for `markRemembered_spec`: the increment branch at a concrete
stage-0 task. -/
theorem markRemembered_spec_witness :
    MarkRemembered ⟨"x", "q", "a", 0, 300, 0, 0, none⟩ 7 =
      { Task.mk "x" "q" "a" 0 300 0 0 none with
        stage := 0 + 1, nextReviewAt := 7 + dur (0 + 1), updatedAt := 7 } :=
  ((markRemembered_spec ⟨"x", "q", "a", 0, 300, 0, 0, none⟩ 7).2 rfl (by decide)
    (by decide)).2 (by decide)

/-- C7: `UpdateContent` errors iff question or answer is empty after
trimming; on success only question and answer change (to their trimmed
values); on a validation error the stored task is left unchanged (the
store-level update writes nothing and rolls back). -/
theorem updateContent_spec (t : Task) (question answer : String)
    (st : List Task) (id : String) (now : Int) :
    ((trimSpace question = "" ∨ trimSpace answer = "") ↔
      UpdateContent t question answer = Except.error "question and answer are required") ∧
    (∀ t2, UpdateContent t question answer = Except.ok t2 →
      t2.question = trimSpace question ∧ t2.answer = trimSpace answer ∧
      t2.id = t.id ∧ t2.stage = t.stage ∧ t2.nextReviewAt = t.nextReviewAt ∧
      t2.createdAt = t.createdAt ∧ t2.updatedAt = t.updatedAt ∧
      t2.completedAt = t.completedAt) ∧
    ((trimSpace question = "" ∨ trimSpace answer = "") →
      (updateTask st id question answer now).1 = st) := by
  refine ⟨?_, ?_, ?_⟩
  · unfold UpdateContent
    by_cases h : trimSpace question = "" ∨ trimSpace answer = "" <;> simp [h]
  · intro t2 h2
    unfold UpdateContent at h2
    by_cases h : trimSpace question = "" ∨ trimSpace answer = ""
    · simp [h] at h2
    · simp [h] at h2
      subst h2
      exact ⟨rfl, rfl, rfl, rfl, rfl, rfl, rfl, rfl⟩
  · intro h
    unfold updateTask
    cases hf : st.find? (fun u => u.id = id) with
    | none => rfl
    | some u =>
        have he : UpdateContent u question answer =
            Except.error "question and answer are required" := by
          unfold UpdateContent
          simp [h]
        simp [he]

/-- Witness for `updateContent_spec`: empty question rejected, store
untouched. -/
theorem updateContent_spec_witness :
    UpdateContent ⟨"x", "q", "a", 0, 300, 0, 0, none⟩ "" "y" =
      Except.error "question and answer are required" ∧
    (updateTask [⟨"x", "q", "a", 0, 300, 0, 0, none⟩] "x" "" "y" 9).1 =
      [⟨"x", "q", "a", 0, 300, 0, 0, none⟩] := by
  refine ⟨?_, ?_⟩
  · exact (updateContent_spec ⟨"x", "q", "a", 0, 300, 0, 0, none⟩ "" "y"
      [⟨"x", "q", "a", 0, 300, 0, 0, none⟩] "x" 9).1.mp (Or.inl (by decide))
  · exact (updateContent_spec ⟨"x", "q", "a", 0, 300, 0, 0, none⟩ "" "y"
      [⟨"x", "q", "a", 0, 300, 0, 0, none⟩] "x" 9).2.2 (Or.inl (by decide))

/-- C10: on tasks satisfying the stage invariant, every ladder index the
operations evaluate is in bounds: `MarkRemembered` only reads
`StageDurations[t.stage]` after the increment, at an index in `[1, N-1]`,
and `NewTask`/`MarkForgot` read index 0, which exists because the ladder
is non-empty. -/
theorem ladder_index_in_bounds (t : Task)
    (h0 : 0 ≤ t.stage) (h1 : t.stage ≤ TotalStages)
    (h2 : t.completedAt = none → t.stage < TotalStages) :
    (∀ i, markRememberedLadderIndex t = some i →
      0 ≤ i ∧ i < TotalStages ∧ i.toNat < StageDurations.length) ∧
    (0 : Int).toNat < StageDurations.length := by
  constructor
  · intro i hi
    unfold markRememberedLadderIndex at hi
    by_cases hc : t.completedAt.isSome
    · simp [hc] at hi
    · by_cases hge : t.stage ≥ TotalStages - 1
      · simp [hc, hge] at hi
      · simp [hc, hge] at hi
        have hlen : StageDurations.length = 8 := rfl
        rw [totalStages_eq] at hge ⊢
        omega
  · decide

/-- Witness for `ladder_index_in_bounds`: a stage-2 incomplete task
evaluates index 3 and it is in bounds. -/
theorem ladder_index_in_bounds_witness :
    (0 : Int) ≤ 3 ∧ (3 : Int) < TotalStages ∧ (3 : Int).toNat < StageDurations.length :=
  (ladder_index_in_bounds ⟨"x", "q", "a", 2, 300, 0, 0, none⟩ (by decide) (by decide)
    (fun _ => by decide)).1 3 (by decide)

/-- Counterexample to C8 as stated: `"REMEMBERED"` is mapped to
mark-remembered by the handler even though it is not an element of
{"remembered", "remember", "ok", "done"} — the handler compares the
trimmed, lowercased result, not the raw body value. -/
theorem reviewResult_literal_cex :
    parseReviewResult "REMEMBERED" = some ReviewAction.remembered ∧
    ¬("REMEMBERED" = "remembered" ∨ "REMEMBERED" = "remember" ∨
      "REMEMBERED" = "ok" ∨ "REMEMBERED" = "done") := by
  constructor
  · rfl
  · decide

/-- C8 (amended): with `r` the trimmed, lowercased request result, the
handler maps to mark-remembered iff `r ∈` {"remembered", "remember",
"ok", "done"}, to mark-forgot iff `r ∈` {"forgot", "forget", "miss"},
and for any other value responds 400 leaving the store untouched (no
persistence call). -/
theorem reviewResult_spec (st : List Task) (id result : String) (now : Int) :
    (parseReviewResult result = some ReviewAction.remembered ↔
      (normalizeResult result = "remembered" ∨ normalizeResult result = "remember" ∨
       normalizeResult result = "ok" ∨ normalizeResult result = "done")) ∧
    (parseReviewResult result = some ReviewAction.forgot ↔
      (normalizeResult result = "forgot" ∨ normalizeResult result = "forget" ∨
       normalizeResult result = "miss")) ∧
    (parseReviewResult result = none →
      reviewTask st id result now = (st, 400)) ∧
    (¬(normalizeResult result = "remembered" ∨ normalizeResult result = "remember" ∨
       normalizeResult result = "ok" ∨ normalizeResult result = "done") →
     ¬(normalizeResult result = "forgot" ∨ normalizeResult result = "forget" ∨
       normalizeResult result = "miss") →
      reviewTask st id result now = (st, 400)) := by
  refine ⟨?_, ?_, ?_, ?_⟩
  · unfold parseReviewResult
    by_cases h1 : normalizeResult result = "remembered" ∨ normalizeResult result = "remember" ∨
        normalizeResult result = "ok" ∨ normalizeResult result = "done"
    · simp [h1]
    · by_cases h2 : normalizeResult result = "forgot" ∨ normalizeResult result = "forget" ∨
          normalizeResult result = "miss"
      · simp [h1, h2]
      · simp [h1, h2]
  · unfold parseReviewResult
    by_cases h1 : normalizeResult result = "remembered" ∨ normalizeResult result = "remember" ∨
        normalizeResult result = "ok" ∨ normalizeResult result = "done"
    · rcases h1 with h | h | h | h <;> simp [h]
    · by_cases h2 : normalizeResult result = "forgot" ∨ normalizeResult result = "forget" ∨
          normalizeResult result = "miss"
      · simp [h1, h2]
      · simp [h1, h2]
  · intro h
    unfold reviewTask
    simp [h]
  · intro h1 h2
    have h : parseReviewResult result = none := by
      unfold parseReviewResult
      simp [h1, h2]
    unfold reviewTask
    simp [h]

/-- Witness for `reviewResult_spec`: an unrecognized result responds 400
and leaves the store unchanged. -/
theorem reviewResult_spec_witness :
    reviewTask [⟨"x", "q", "a", 0, 300, 0, 0, none⟩] "x" "dunno" 5 =
      ([⟨"x", "q", "a", 0, 300, 0, 0, none⟩], 400) :=
  (reviewResult_spec [⟨"x", "q", "a", 0, 300, 0, 0, none⟩] "x" "dunno" 5).2.2.1 rfl

/-- C9: `GET /tasks/ready` and `GET /tasks?status=ready` return the same
list: exactly the representations of the stored tasks whose derived
status at `now` is "ready", in store order. -/
theorem ready_endpoints_agree (all : List Task) (now : Int) :
    readyTasks all now = listTasks all "ready" now ∧
    readyTasks all now =
      (all.filter (fun t => Status t now = "ready")).map (fun t => mapTask t now) := by
  constructor
  · unfold readyTasks listTasks
    refine (List.filter_congr ?_).symm
    intro tr _
    have hr : toLower (trimSpace "ready") = "ready" := rfl
    rw [hr]
    simp
  · unfold readyTasks
    rw [List.filter_map]
    rfl

/-- One mutation of a task after creation: a review outcome or a content
edit (an unsuccessful edit leaves the task unchanged, as in the source). -/
inductive Event where
  | remembered (now : Int)
  | forgot (now : Int)
  | update (question answer : String)

/-- Apply one event to a task. -/
def applyEvent (t : Task) : Event → Task
  | Event.remembered now => MarkRemembered t now
  | Event.forgot now => MarkForgot t now
  | Event.update q a =>
      match UpdateContent t q a with
      | Except.ok t2 => t2
      | Except.error _ => t

/-- Apply a sequence of events to a task. -/
def runEvents (t : Task) (es : List Event) : Task := es.foldl applyEvent t

/-- Review events carry a real (non-negative) timestamp: every Go time a
handler passes lies at or after our epoch, strictly after the Go zero
time. -/
def eventTimeNonneg : Event → Bool
  | Event.remembered now => 0 ≤ now
  | Event.forgot now => 0 ≤ now
  | Event.update _ _ => true

/-- The data-model invariant of C2: completion, schedule and stage
bounds. -/
def Inv (t : Task) : Prop :=
  (t.completedAt.isSome ↔ t.stage = TotalStages) ∧
  (t.nextReviewAt = 0 ↔ t.completedAt.isSome) ∧
  0 ≤ t.stage ∧ t.stage ≤ TotalStages

theorem inv_applyEvent (t : Task) (e : Event) (h : Inv t)
    (he : eventTimeNonneg e = true) : Inv (applyEvent t e) := by
  obtain ⟨h1, h2, h3, h4⟩ := h
  cases e with
  | remembered now =>
      simp only [eventTimeNonneg, decide_eq_true_eq] at he
      show Inv (MarkRemembered t now)
      unfold MarkRemembered
      by_cases hc : t.completedAt.isSome
      · simp only [hc, if_true]
        exact ⟨h1, h2, h3, h4⟩
      · have hne : t.stage ≠ TotalStages := by
          intro hEq
          exact hc (h1.mpr hEq)
        by_cases hge : t.stage ≥ TotalStages - 1
        · simp only [hc, hge, if_false, if_true]
          refine ⟨?_, ?_, ?_, ?_⟩ <;> simp [totalStages_eq]
        · simp only [hc, hge, if_false]
          have hlt : t.stage + 1 < TotalStages := by omega
          have hpos : 0 < dur (t.stage + 1) := dur_pos _ (by omega) hlt
          refine ⟨?_, ?_, ?_, ?_⟩ <;> simp [hc]
          · omega
          · omega
          · omega
          · omega
  | forgot now =>
      simp only [eventTimeNonneg, decide_eq_true_eq] at he
      show Inv (MarkForgot t now)
      have hpos : 0 < dur 0 := by decide
      refine ⟨?_, ?_, ?_, ?_⟩ <;> simp [MarkForgot, totalStages_eq] <;> omega
  | update q a =>
      show Inv (applyEvent t (Event.update q a))
      unfold applyEvent UpdateContent
      by_cases hv : trimSpace q = "" ∨ trimSpace a = ""
      · simp only [hv, if_true]
        exact ⟨h1, h2, h3, h4⟩
      · simp only [hv, if_false]
        exact ⟨h1, h2, h3, h4⟩

theorem inv_runEvents (es : List Event) (t : Task) (h : Inv t)
    (hes : ∀ e, e ∈ es → eventTimeNonneg e = true) :
    Inv (runEvents t es) := by
  induction es generalizing t with
  | nil => exact h
  | cons e es ih =>
      exact ih _ (inv_applyEvent t e h (hes e (List.mem_cons_self e es)))
        (fun e2 he2 => hes e2 (List.mem_cons_of_mem e he2))

/-- C2: every task reachable from `NewTask` by review and content-edit
events (with real, non-negative timestamps) satisfies: `completedAt` is
set iff `stage = N`; `nextReviewAt` is the zero value iff `completedAt`
is set (a real timestamp otherwise); and `0 ≤ stage ≤ N`. -/
theorem reachable_invariant (question answer id : String) (now0 : Int) (t0 : Task)
    (es : List Event) (hnew : NewTask question answer id now0 = Except.ok t0)
    (h0 : 0 ≤ now0) (hes : ∀ e, e ∈ es → eventTimeNonneg e = true) :
    Inv (runEvents t0 es) := by
  apply inv_runEvents es t0 _ hes
  unfold NewTask at hnew
  by_cases hv : trimSpace question = "" ∨ trimSpace answer = ""
  · simp [hv] at hnew
  · simp [hv] at hnew
    have hpos : 0 < dur 0 := by decide
    subst hnew
    refine ⟨?_, ?_, ?_, ?_⟩ <;> simp [totalStages_eq]
    omega

/-- Witness for `reachable_invariant` on a concrete event trace. -/
theorem reachable_invariant_witness :
    Inv (runEvents ⟨"id1", "q", "a", 0, 0 + dur 0, 0, 0, none⟩
      [Event.remembered 1, Event.update " q2 " "a2", Event.forgot 2, Event.remembered 3]) :=
  reachable_invariant "q" "a" "id1" 0 ⟨"id1", "q", "a", 0, 0 + dur 0, 0, 0, none⟩
    [Event.remembered 1, Event.update " q2 " "a2", Event.forgot 2, Event.remembered 3]
    rfl (by decide) (by decide)

theorem markRemembered_noop (t : Task) (m : Int) (h : t.completedAt.isSome) :
    MarkRemembered t m = t := by
  unfold MarkRemembered
  simp [h]

theorem foldl_markRemembered_completed (ns : List Int) (t : Task)
    (h : t.completedAt.isSome) : ns.foldl MarkRemembered t = t := by
  induction ns generalizing t with
  | nil => rfl
  | cons n ns ih =>
      rw [List.foldl_cons, markRemembered_noop t n h, ih t h]

theorem foldl_markRemembered_completes (ns : List Int) (t : Task)
    (hc : t.completedAt = none) (h0 : 0 ≤ t.stage)
    (hlt : t.stage < TotalStages) (hlen : TotalStages ≤ t.stage + ns.length) :
    ((ns.foldl MarkRemembered t).completedAt).isSome := by
  induction ns generalizing t with
  | nil =>
      exfalso
      simp only [List.length_nil, Nat.cast_zero, add_zero] at hlen
      omega
  | cons n ns ih =>
      simp only [List.length_cons] at hlen
      by_cases hge : t.stage ≥ TotalStages - 1
      · have hstep : MarkRemembered t n =
            { t with stage := TotalStages, nextReviewAt := 0,
                     completedAt := some n, updatedAt := n } := by
          unfold MarkRemembered
          simp [hc, hge]
        have h2 : ((MarkRemembered t n).completedAt).isSome = true := by
          rw [hstep]
          rfl
        rw [List.foldl_cons, foldl_markRemembered_completed ns _ h2]
        exact h2
      · have hstep : MarkRemembered t n =
            { t with stage := t.stage + 1, nextReviewAt := n + dur (t.stage + 1),
                     updatedAt := n } := by
          unfold MarkRemembered
          simp [hc, hge]
        rw [List.foldl_cons, hstep]
        apply ih
        · exact hc
        · show 0 ≤ t.stage + 1
          omega
        · show t.stage + 1 < TotalStages
          omega
        · show TotalStages ≤ t.stage + 1 + (ns.length : Int)
          omega

/-- C6: from a freshly created task, eight `MarkRemembered` calls (any
strictly increasing timestamps) complete the task (`completedAt` set,
status "done" at every time), and a further `MarkRemembered` is a no-op
on every field. -/
theorem markRemembered_n_completes (question answer id : String) (now0 : Int)
    (t : Task) (ns : List Int)
    (hnew : NewTask question answer id now0 = Except.ok t)
    (hlen : ns.length = 8)
    (hinc : List.Chain' (fun x y => x < y) (now0 :: ns)) :
    ((ns.foldl MarkRemembered t).completedAt).isSome ∧
    (∀ m, Status (ns.foldl MarkRemembered t) m = "done") ∧
    (∀ m, MarkRemembered (ns.foldl MarkRemembered t) m = ns.foldl MarkRemembered t) := by
  have hfields : t.stage = 0 ∧ t.completedAt = none := by
    unfold NewTask at hnew
    by_cases hv : trimSpace question = "" ∨ trimSpace answer = ""
    · simp [hv] at hnew
    · simp [hv] at hnew
      subst hnew
      exact ⟨rfl, rfl⟩
  obtain ⟨hs, hcn⟩ := hfields
  have h8 : TotalStages = 8 := rfl
  have hdone : ((ns.foldl MarkRemembered t).completedAt).isSome :=
    foldl_markRemembered_completes ns t hcn (by omega) (by omega) (by omega)
  refine ⟨hdone, ?_, ?_⟩
  · intro m
    simp [Status, hdone]
  · intro m
    exact markRemembered_noop _ m hdone

/-- Witness for `markRemembered_n_completes` on a concrete trace. -/
theorem markRemembered_n_completes_witness :
    ((([1, 2, 3, 4, 5, 6, 7, 8] : List Int).foldl MarkRemembered
        ⟨"id1", "q", "a", 0, 0 + dur 0, 0, 0, none⟩).completedAt).isSome = true ∧
    Status (([1, 2, 3, 4, 5, 6, 7, 8] : List Int).foldl MarkRemembered
        ⟨"id1", "q", "a", 0, 0 + dur 0, 0, 0, none⟩) 99 = "done" :=
  ⟨(markRemembered_n_completes "q" "a" "id1" 0 ⟨"id1", "q", "a", 0, 0 + dur 0, 0, 0, none⟩
      [1, 2, 3, 4, 5, 6, 7, 8] rfl rfl (by simp [List.chain'_cons])).1,
   (markRemembered_n_completes "q" "a" "id1" 0 ⟨"id1", "q", "a", 0, 0 + dur 0, 0, 0, none⟩
      [1, 2, 3, 4, 5, 6, 7, 8] rfl rfl (by simp [List.chain'_cons])).2.1 99⟩

end Yiwang
